import Mathlib

/-!
Shallow embedding of the two DATEV PDF-to-CSV extraction pipelines
(`pdf-to-csv_DATEV_Entwicklungsuebersicht.py` and `pdf-to-csv_DATEV_SUSA.py`).

Python text is modelled as `String` / `List Char`.  The Python regular
expressions used by the source (`MONTHS_RE`, `DE_NUMBER_RE`,
`SEPARATOR_CLEAN_RE`, `konto_re`) are hand-compiled into backtracking
matchers that follow the CPython `re` semantics for these concrete
patterns: leftmost scan, alternatives tried left to right, greedy
quantifiers with backtracking.  Character classes (`\d`, `\s`, `\w`) are
modelled on the characters that can occur in these reports (ASCII plus
the German letters used by the label sets); floats are modelled as exact
rationals.
-/

/-! ### Python character classes -/

def isSpacePy (c : Char) : Bool :=
  c = ' ' || c = '\t' || c = '\n' || c = '\r' || c = '\x0b' || c = '\x0c'

def isDigitPy (c : Char) : Bool :=
  '0' ≤ c && c ≤ '9'

def isWordPy (c : Char) : Bool :=
  isDigitPy c || ('a' ≤ c && c ≤ 'z') || ('A' ≤ c && c ≤ 'Z') || c = '_' ||
    c = 'ä' || c = 'ö' || c = 'ü' || c = 'Ä' || c = 'Ö' || c = 'Ü' || c = 'ß'

def isSepPy (c : Char) : Bool :=
  c = '/' || c = '.' || c = '-'

/-! ### Python string primitives -/

/-- Python `str.strip()` (whitespace from both ends). -/
def pyStrip (s : String) : String :=
  String.mk (((s.toList.dropWhile isSpacePy).reverse.dropWhile isSpacePy).reverse)

/-- Whether `needle` occurs at the very start of `hay`. -/
def startsList : List Char → List Char → Bool
  | [], _ => true
  | _ :: _, [] => false
  | a :: as, c :: cs => a = c && startsList as cs

def strFindAux (needle : List Char) : List Char → Nat → Int
  | [], p => if startsList needle [] then (p : Int) else -1
  | c :: t, p =>
    if startsList needle (c :: t) then (p : Int) else strFindAux needle t (p + 1)

/-- Python `hay.find(needle)`: index of the first occurrence, `-1` if absent. -/
def strFind (hay needle : String) : Int :=
  strFindAux needle.toList hay.toList 0

/-- Python `needle in hay` (substring containment). -/
def containsSub (hay needle : String) : Bool :=
  decide ((0 : Int) ≤ strFind hay needle)

/-- Python `s[:i]`, including the negative-index convention. -/
def pyTakeInt (s : String) (i : Int) : String :=
  if i < 0 then String.mk (s.toList.take (s.toList.length - i.natAbs))
  else String.mk (s.toList.take i.toNat)

/-- Python `str.splitlines()` worker (terminators `\n`, `\r\n`, `\r`;
a trailing terminator produces no empty final line).  Every step consumes
at least one character, so fuel `length + 1` never runs out. -/
def splitlinesGo : Nat → List Char → List Char → List (List Char)
  | 0, acc, _ => [acc.reverse]
  | _, acc, [] => [acc.reverse]
  | fuel + 1, acc, '\r' :: '\n' :: rest =>
    acc.reverse :: (match rest with | [] => [] | r :: rs => splitlinesGo fuel [] (r :: rs))
  | fuel + 1, acc, '\r' :: rest =>
    acc.reverse :: (match rest with | [] => [] | r :: rs => splitlinesGo fuel [] (r :: rs))
  | fuel + 1, acc, '\n' :: rest =>
    acc.reverse :: (match rest with | [] => [] | r :: rs => splitlinesGo fuel [] (r :: rs))
  | fuel + 1, acc, c :: rest => splitlinesGo fuel (c :: acc) rest

/-- Python `text.splitlines()`. -/
def splitlines (s : String) : List String :=
  match s.toList with
  | [] => []
  | c :: rest => (splitlinesGo (rest.length + 1) [] (c :: rest)).map String.mk

/-- Remove duplicates keeping the first occurrence (the `seen`-set idiom
used both for month tokens and for row deduplication in the source). -/
def dedupSeen {α : Type} [DecidableEq α] (seen : List α) : List α → List α
  | [] => []
  | x :: xs => if x ∈ seen then dedupSeen seen xs else x :: dedupSeen (x :: seen) xs

def dedupKeepFirst {α : Type} [DecidableEq α] (l : List α) : List α :=
  dedupSeen [] l

/-! ### `DE_NUMBER_RE = -?\d{1,3}(?:\.\d{3})*,\d{2}|-?0,00`
hand-compiled with CPython backtracking order. -/

/-- Fragment `,\d{2}` (the match ends here; `findall` imposes no trailing context). -/
def deTail : List Char → Option Nat
  | ',' :: a :: b :: _ => if isDigitPy a && isDigitPy b then some 3 else none
  | _ => none

/-- Fragment `(?:\.\d{3})*` (greedy, maximal repetitions first) followed by `k`. -/
def deRepsThen (k : List Char → Option Nat) : List Char → Option Nat
  | '.' :: a :: b :: c :: rest =>
    if isDigitPy a && isDigitPy b && isDigitPy c then
      match deRepsThen k rest with
      | some n => some (n + 4)
      | none => k ('.' :: a :: b :: c :: rest)
    else k ('.' :: a :: b :: c :: rest)
  | cs => k cs

/-- Fragment `\d{d}` (exactly `d` digits) then the rest of the first alternative. -/
def deFromDigits (d : Nat) (cs : List Char) : Option Nat :=
  let ds := cs.take d
  if ds.length = d && ds.all isDigitPy then
    (deRepsThen deTail (cs.drop d)).map (· + d)
  else none

/-- Fragment `\d{1,3}` (greedy: three digits first) then `(?:\.\d{3})*,\d{2}`. -/
def deAlt1 (cs : List Char) : Option Nat :=
  deFromDigits 3 cs <|> deFromDigits 2 cs <|> deFromDigits 1 cs

/-- Fragment `-?` (greedy) before the first alternative. -/
def deNeg1 : List Char → Option Nat
  | '-' :: rest => ((deAlt1 rest).map (· + 1)) <|> deAlt1 ('-' :: rest)
  | cs => deAlt1 cs

/-- second alternative `-?0,00`. -/
def deAlt2 : List Char → Option Nat
  | '-' :: '0' :: ',' :: '0' :: '0' :: _ => some 5
  | '0' :: ',' :: '0' :: '0' :: _ => some 4
  | _ => none

/-- Length of the `DE_NUMBER_RE` match anchored at the head, if any. -/
def deMatch (cs : List Char) : Option Nat :=
  deNeg1 cs <|> deAlt2 cs

/-- The `finditer` scan: left to right, non-overlapping, recording start positions. -/
def deFindAux : Nat → Nat → List Char → List (Nat × String)
  | 0, _, _ => []
  | _, _, [] => []
  | fuel + 1, pos, c :: rest =>
    match deMatch (c :: rest) with
    | some n =>
      (pos, String.mk ((c :: rest).take n)) :: deFindAux fuel (pos + n) ((c :: rest).drop n)
    | none => deFindAux fuel (pos + 1) rest

/-- Model of `DE_NUMBER_RE.findall(s)` together with each match's start index
(the indices are derived data used only by the verification statements). -/
def DE_findallPos (s : String) : List (Nat × String) :=
  deFindAux (s.toList.length + 1) 0 s.toList

/-- Model of `DE_NUMBER_RE.findall(s)`. -/
def DE_findall (s : String) : List String :=
  (DE_findallPos s).map Prod.snd

/-! ### `MONTHS_RE` — month-token regex, hand-compiled.

    \b(?:Jan(?:uar)?|Feb(?:ruar)?|M(?:ärz?|aerz?|rz|ar)|Apr(?:il)?|Mai|Jun(?:i)?|
    Jul(?:i)?|Aug(?:ust)?|Sep(?:t(?:ember)?)?|Okt(?:ober)?|Nov(?:ember)?|Dez(?:ember)?)\.?
    \s*(?:[/\.\-]\s*|\s+)\d{2,4}\b

The month alternation with its optional groups matches a finite set of
literals; they are listed in CPython backtracking order (alternatives left
to right, greedy optional parts first). -/

def monthLits : List (List Char) :=
  ["Januar", "Jan", "Februar", "Feb", "März", "Mär", "Maerz", "Maer", "Mrz", "Mar",
   "April", "Apr", "Mai", "Juni", "Jun", "Juli", "Jul", "August", "Aug",
   "September", "Sept", "Sep", "Oktober", "Okt", "November", "Nov",
   "Dezember", "Dez"].map String.toList

/-- Match a literal at the head, returning the remainder. -/
def matchLit : List Char → List Char → Option (List Char)
  | [], cs => some cs
  | _ :: _, [] => none
  | a :: as, c :: cs => if a = c then matchLit as cs else none

/-- Fragment `\s*` (greedy with backtracking) followed by continuation `k`;
returns the total number of consumed characters. -/
def wsStarThen (k : List Char → Option Nat) : List Char → Option Nat
  | [] => k []
  | c :: rest =>
    if isSpacePy c then
      match wsStarThen k rest with
      | some n => some (n + 1)
      | none => k (c :: rest)
    else k (c :: rest)

/-- Fragment `\b` after the final digit: end of input or a non-word character. -/
def wordBoundAfter : List Char → Bool
  | [] => true
  | c :: _ => !(isWordPy c)

/-- Fragment `\d{d}` followed by `\b`. -/
def tryDigits (d : Nat) (cs : List Char) : Option Nat :=
  let ds := cs.take d
  if ds.length = d && ds.all isDigitPy && wordBoundAfter (cs.drop d) then some d else none

/-- Fragment `\d{2,4}\b` (greedy: four digits first). -/
def digitsBound (cs : List Char) : Option Nat :=
  tryDigits 4 cs <|> tryDigits 3 cs <|> tryDigits 2 cs

/-- Fragment `[/\.\-]\s*\d{2,4}\b`. -/
def sepThen : List Char → Option Nat
  | c :: rest => if isSepPy c then (wsStarThen digitsBound rest).map (· + 1) else none
  | [] => none

/-- Fragment `\s+\d{2,4}\b` (one whitespace, then greedy `\s*`). -/
def spaceThen : List Char → Option Nat
  | c :: rest => if isSpacePy c then (wsStarThen digitsBound rest).map (· + 1) else none
  | [] => none

/-- Fragment `(?:[/\.\-]\s*|\s+)\d{2,4}\b`. -/
def altTail (cs : List Char) : Option Nat :=
  sepThen cs <|> spaceThen cs

/-- Fragment `\s*(?:[/\.\-]\s*|\s+)\d{2,4}\b`. -/
def monthTail (cs : List Char) : Option Nat :=
  wsStarThen altTail cs

/-- Fragment `\.?` (greedy) then `monthTail`. -/
def dotThen (cs : List Char) : Option Nat :=
  (match cs with
   | '.' :: rest => (monthTail rest).map (· + 1)
   | _ => none) <|> monthTail cs

/-- Try the month literals in backtracking order; on a literal match, run the
rest of the pattern, falling back to the next literal on failure. -/
def tryLits : List (List Char) → List Char → Option Nat
  | [], _ => none
  | lit :: more, cs =>
    match matchLit lit cs with
    | some rest =>
      (match dotThen rest with
       | some n => some (lit.length + n)
       | none => tryLits more cs)
    | none => tryLits more cs

/-- Full `MONTHS_RE` match anchored at the head.  The leading `\b` requires
the previous character not to be a word character (every month literal
starts with a letter). -/
def monthAt (prevWord : Bool) (cs : List Char) : Option Nat :=
  if prevWord then none else tryLits monthLits cs

/-- The `MONTHS_RE.finditer` scan (non-overlapping, left to right). -/
def findMonthsAux : Nat → Bool → List Char → List String
  | 0, _, _ => []
  | _, _, [] => []
  | fuel + 1, prevWord, c :: rest =>
    match monthAt prevWord (c :: rest) with
    | some n =>
      String.mk ((c :: rest).take n) ::
        findMonthsAux fuel (isWordPy (((c :: rest).take n).getLastD '0')) ((c :: rest).drop n)
    | none => findMonthsAux fuel (isWordPy c) rest

/-- All `MONTHS_RE` matches of `s`, in order. -/
def MONTHS_findall (s : String) : List String :=
  findMonthsAux (s.toList.length + 1) false s.toList

/-! ### month-token normalization -/

/-- Python `token.split()` (split on whitespace runs, dropping empties). -/
def wordsGo (cur : List Char) : List Char → List (List Char)
  | [] => if cur.isEmpty then [] else [cur.reverse]
  | c :: rest =>
    if isSpacePy c then
      if cur.isEmpty then wordsGo [] rest else cur.reverse :: wordsGo [] rest
    else wordsGo (c :: cur) rest

/-- Python `" ".join(token.split())`. -/
def collapseWs (s : String) : String :=
  String.intercalate " " ((wordsGo [] s.toList).map String.mk)

/-- Length of the leading whitespace run. -/
def wsRunLen (cs : List Char) : Nat :=
  (cs.takeWhile isSpacePy).length

/-- The `SEPARATOR_CLEAN_RE.sub(r"\1", ·)` worker: replace `\s*([/\.\-])\s*`
by the separator, scanning left to right. -/
def sepSubGo : Nat → List Char → List Char
  | 0, _ => []
  | _, [] => []
  | fuel + 1, c :: rest =>
    let k := wsRunLen (c :: rest)
    match (c :: rest).drop k with
    | s :: tail =>
      if isSepPy s then s :: sepSubGo fuel (tail.drop (wsRunLen tail))
      else c :: sepSubGo fuel rest
    | [] => c :: sepSubGo fuel rest

def sepSub (s : String) : String :=
  String.mk (sepSubGo (s.toList.length + 1) s.toList)

/-- Model of `normalize_month_token` from the source: collapse inner whitespace, then
tighten separators. -/
def normalize_month_token (s : String) : String :=
  sepSub (collapseWs s)

/-- Model of `extract_month_tokens`: all matches, normalized, deduplicated keeping the
first occurrence. -/
def extract_month_tokens (s : String) : List String :=
  dedupKeepFirst ((MONTHS_findall s).map normalize_month_token)

/-- Python `ordered[-13:]` under the guard `len(ordered) >= 13`. -/
def lastN (k : Nat) (l : List String) : List String :=
  l.drop (l.length - k)

/-- The loop over lines containing `"Bezeichnung"` in `detect_month_header`. -/
def bezScan : List String → Option (List String)
  | [] => none
  | line :: rest =>
    if containsSub line "Bezeichnung" then
      let ordered := extract_month_tokens line
      if 13 ≤ ordered.length then some (lastN 13 ordered) else bezScan rest
    else bezScan rest

/-- Model of `detect_month_header`: anchored lines first, then the whole text. -/
def detect_month_header (text : String) : Option (List String) :=
  match bezScan (splitlines text) with
  | some hdr => some hdr
  | none =>
    let ordered := extract_month_tokens text
    if 13 ≤ ordered.length then some (lastN 13 ordered) else none

/-! ### Pipeline A — row extraction and structural passes -/

/-- A row: label plus cell texts (Python `(label, values)`). -/
abbrev Row := String × List String

def SECTION_BREAK_AFTER : List String :=
  ["Aktivierte Eigenleistungen", "Gesamtleistung", "Material-/Wareneinkauf", "Rohertrag",
   "So. betr. Erlöse", "Betrieblicher Rohertrag", "Gesamtkosten", "Betriebsergebnis",
   "Neutraler Aufwand", "Neutraler Ertrag", "Kontenklasse unbesetzt",
   "Ergebnis vor Steuern", "Steuern Einkommen u. Ertrag", "Vorläufiges Ergebnis"]

def COST_LABELS : List String :=
  ["Personalkosten", "Raumkosten", "Betriebliche Steuern", "Versicherungen/Beiträge",
   "Besondere Kosten", "Fahrzeugkosten (ohne Steuer)", "Werbe-/Reisekosten",
   "Kosten Warenabgabe", "Abschreibungen", "Reparatur/Instandhaltung",
   "Sonstige Kosten", "Gesamtkosten"]

/-- Python `nums[-k:]` (note `nums[-0:]` is the whole list). -/
def pyLastSlice {α : Type} (k : Nat) (l : List α) : List α :=
  if k = 0 then l else l.drop (l.length - k)

/-- Body of the per-line loop of `parse_rows_from_text`: `none` means the
line contributes no row.  When `months = []` and the stripped line has no
numeric token the source raises `IndexError` at `values[0]`; that
unreachable-in-context case is modelled as `none` (the program only calls
this with the 13-token header). -/
def rowOfLine (months : List String) (raw : String) : Option Row :=
  let line := pyStrip raw
  if line = "" then none
  else if line = "Kostenarten:" then some (line, List.replicate months.length "")
  else
    let nums := DE_findall line
    if months.length ≤ nums.length then
      let values := pyLastSlice months.length nums
      match values.head? with
      | none => none
      | some first_num =>
        some (pyStrip (pyTakeInt line (strFind line first_num)), values)
    else none

/-- Model of `parse_rows_from_text`. -/
def parse_rows_from_text (text : String) (months : List String) : List Row :=
  (splitlines text).filterMap (rowOfLine months)

/-- Python `next((i for i, x in enumerate(l) if p x), None)`. -/
def firstIdx {α : Type} (p : α → Bool) : List α → Option Nat
  | [] => none
  | x :: xs => if p x then some 0 else (firstIdx p xs).map (· + 1)

/-- Model of `ensure_kostenarten`. -/
def ensure_kostenarten (rows : List Row) (months : List String) : List Row :=
  if "Kostenarten:" ∈ rows.map Prod.fst then rows
  else
    match firstIdx (fun r => decide (r.1 ∈ COST_LABELS)) rows with
    | none => rows
    | some i =>
      rows.take i ++ [("Kostenarten:", List.replicate months.length "")] ++ rows.drop i

/-- The blank separator row `("", [""] * months_count)`. -/
def blankRow (n : Nat) : Row := ("", List.replicate n "")

/-- Loop of `insert_section_breaks`; the base case is the trailing blank row. -/
def insertGo : List Row → Nat → List Row
  | [], n => [blankRow n]
  | r :: rs, n =>
    if r.1 ∈ SECTION_BREAK_AFTER then r :: blankRow n :: insertGo rs n
    else r :: insertGo rs n

/-- Model of `insert_section_breaks` (leading blank row, blank row after each
section-terminal label, trailing blank row). -/
def insert_section_breaks (rows : List Row) (months_count : Nat) : List Row :=
  blankRow months_count :: insertGo rows months_count

/-- Python `not label and (not values or all(v == "" for v in values))`. -/
def isBlankB (r : Row) : Bool :=
  r.1 = "" && (r.2.isEmpty || r.2.all (· = ""))

/-- Loop of `compress_blank_rows` with the `prev_blank` flag. -/
def compressGo (prevBlank : Bool) : List Row → List Row
  | [] => []
  | r :: rs =>
    if isBlankB r && prevBlank then compressGo prevBlank rs
    else r :: compressGo (isBlankB r) rs

/-- Model of `compress_blank_rows`. -/
def compress_blank_rows (rows : List Row) : List Row :=
  compressGo false rows

/-- The inline deduplication loop of `convert_page_to_csv` (`seen` set keyed
by `(label, tuple(values))`, i.e. by row equality). -/
def dedup_rows (rows : List Row) : List Row :=
  dedupKeepFirst rows

/-- Row rendering inside `build_output_table`. -/
def outputRows (header : List String) : List Row → List (List String)
  | [] => []
  | (label, values) :: rs =>
    (if label = "" && !values.isEmpty && values.all (· = "") then
      "" :: List.replicate header.length ""
     else label :: values) :: outputRows header rs

/-- Model of `build_output_table` (the `RuntimeError` is modelled as `Except.error`
carrying the formatted message). -/
def build_output_table (header : List String) (final_rows : List Row)
    (structure_numbers : Option (List String)) :
    Except String (List String × List (List String)) :=
  match structure_numbers with
  | some sn =>
    if sn.length ≠ final_rows.length then
      Except.error ("Struktur hat " ++ toString sn.length ++ " Zeilen, Ergebnis hat " ++
        toString final_rows.length ++ " Zeilen.")
    else Except.ok ("Bezeichnung" :: header, outputRows header final_rows)
  | none => Except.ok ("Bezeichnung" :: header, outputRows header final_rows)

/-- The core of `convert_page_to_csv` after the page text has been read:
header detection, row extraction, the structural passes, and table assembly. -/
def convert_pipeline (text : String) (structure_numbers : Option (List String)) :
    Except String (List String × List (List String)) :=
  match detect_month_header text with
  | none => Except.error "Konnte keine 13 Monats-Spalten auf der Seite erkennen."
  | some header =>
    let rows := parse_rows_from_text text header
    let rows := ensure_kostenarten rows header
    let uniq := dedup_rows rows
    let final := compress_blank_rows (insert_section_breaks uniq header.length)
    build_output_table header final structure_numbers

/-- The explicit-page validation of `convert_page_to_csv` (the branch taken
when the caller supplies `page_number`; `None` instead triggers the page
search, which is outside this check). -/
def convert_page_check (total_pages : Nat) (page_number : Int) : Except String Unit :=
  if page_number < 1 then Except.error "page_number muss 1-basiert sein"
  else if page_number > (total_pages : Int) then
    Except.error ("PDF hat nur " ++ toString total_pages ++ " Seiten, angefragt wurde " ++
      toString page_number ++ ".")
  else Except.ok ()

/-! ### Pipeline B — glyph model, column slicing, amount parsing, row filter.
pdfplumber character dicts are modelled as records; the float page
coordinates and float cell values are modelled as exact rationals. -/

structure PyChar where
  text : String
  x0 : ℚ
  top : ℚ
  deriving DecidableEq, Repr

/-- Python 3 `round` to an integer: round half to even. -/
def roundHalfEven (q : ℚ) : ℤ :=
  let f := ⌊q⌋
  let r := q - (f : ℚ)
  if r < 1/2 then f
  else if 1/2 < r then f + 1
  else if f % 2 = 0 then f else f + 1

/-- The bucket key `round(ch["top"] / bucket) * bucket` of `collect_lines`. -/
def lineKey (bucket : ℚ) (c : PyChar) : ℚ :=
  (roundHalfEven (c.top / bucket) : ℚ) * bucket

/-- Model of `collect_lines`: group characters by rounded vertical position, emit the
groups by ascending key.  (The Python dict groups in order of appearance per
key and the result is sorted by key; filtering the original list per sorted
key produces exactly that.) -/
def collect_lines (chars : List PyChar) (bucket : ℚ) : List (ℚ × List PyChar) :=
  let keys := List.insertionSort (· ≤ ·) (dedupKeepFirst (chars.map (lineKey bucket)))
  keys.map (fun y => (y, chars.filter (fun c => lineKey bucket c = y)))

/-- Model of `COLUMN_BOUNDS` from the source: name, start, end (x positions). -/
def COLUMN_BOUNDS : List (String × ℚ × ℚ) :=
  [("Konto", 0, 90), ("Beschriftung", 90, 320), ("EB-Wert", 320, 410),
   ("Okt 2025 Soll", 410, 500), ("Okt 2025 Haben", 500, 580),
   ("Kum Werte Soll", 580, 660), ("Kum Werte Haben", 660, 750),
   ("Saldo", 750, 900)]

/-- Python `sorted(chars, key=lambda c: c["x0"])` (Python sort is stable;
insertion sort with `≤` is stable as well). -/
def sortedByX (chars : List PyChar) : List PyChar :=
  List.insertionSort (fun a b => a.x0 ≤ b.x0) chars

/-- One column of `slice_columns`: concatenate the text of the glyphs whose
`x0` lies in `[start, stop)`, then strip. -/
def sliceOne (chars : List PyChar) (start stop : ℚ) : String :=
  pyStrip (String.join (chars.filterMap
    (fun c => if start ≤ c.x0 ∧ c.x0 < stop then some c.text else none)))

/-- Model of `slice_columns` as an association list `column name ↦ text`. -/
def slice_columns (chars : List PyChar) : List (String × String) :=
  COLUMN_BOUNDS.map (fun nb => (nb.1, sliceOne (sortedByX chars) nb.2.1 nb.2.2))

def colOf (cols : List (String × String)) (name : String) : String :=
  (cols.lookup name).getD ""

/-! #### `parse_amount` -/

/-- Digit run value. -/
def digitsNatVal (ds : List Char) : Nat :=
  ds.foldl (fun acc c => acc * 10 + (c.toNat - '0'.toNat)) 0

/-- Exponent part of the CPython `float()` grammar (after `e`/`E`). -/
def expPart (cs : List Char) : Option ℚ :=
  let f := fun (neg : Bool) (ds : List Char) =>
    if ds.isEmpty || !(ds.all isDigitPy) then none
    else some (if neg then (1 : ℚ) / 10 ^ digitsNatVal ds else (10 : ℚ) ^ digitsNatVal ds)
  match cs with
  | '+' :: rest => f false rest
  | '-' :: rest => f true rest
  | rest => f false rest

/-- Optional exponent; anything else trailing makes the parse fail. -/
def floatExp : List Char → Option ℚ
  | [] => some 1
  | c :: rest => if c = 'e' || c = 'E' then expPart rest else none

/-- Mantissa of the CPython `float()` grammar:
`digits [. digits] | . digits`, then optional exponent. -/
def floatAfterSign (cs : List Char) : Option ℚ :=
  let ip := cs.takeWhile isDigitPy
  let rest := cs.drop ip.length
  match rest with
  | '.' :: rest2 =>
    let fp := rest2.takeWhile isDigitPy
    let rest3 := rest2.drop fp.length
    if ip.isEmpty && fp.isEmpty then none
    else
      (floatExp rest3).map (fun e =>
        ((digitsNatVal ip : ℚ) + (digitsNatVal fp : ℚ) / 10 ^ fp.length) * e)
  | _ =>
    if ip.isEmpty then none else (floatExp rest).map (fun e => (digitsNatVal ip : ℚ) * e)

/-- CPython `float(s)`, modelled as an exact rational.  `inf`/`nan` and
underscore digit separators are not modelled; they cannot be produced by
the cleaning steps of `parse_amount` on report text. -/
def pyFloat? (s : String) : Option ℚ :=
  let cs := (s.toList.dropWhile isSpacePy).reverse.dropWhile isSpacePy |>.reverse
  match cs with
  | '+' :: rest => floatAfterSign rest
  | '-' :: rest => (floatAfterSign rest).map (fun q => -q)
  | rest => floatAfterSign rest

/-- Python `text.replace(" ", "")`. -/
def amountClean1 (text : String) : List Char :=
  text.toList.filter (fun c => c ≠ ' ')

/-- Python `cleaned.endswith(("S", "H"))`. -/
def amountSuffix (cs : List Char) : Bool :=
  cs.getLastD ' ' = 'S' || cs.getLastD ' ' = 'H'

/-- The fully cleaned text handed to `float()`: spaces removed, a trailing
`S`/`H` stripped, thousands periods removed, decimal comma to point. -/
def amountCleaned (text : String) : List Char :=
  let c1 := amountClean1 text
  let c2 := if amountSuffix c1 then c1.dropLast else c1
  (c2.filter (fun c => c ≠ '.')).map (fun c => if c = ',' then '.' else c)

/-- Model of `parse_amount(text, signed)`. -/
def parse_amount (text : String) (signed : Bool) : ℚ :=
  if text = "" then 0
  else
    let c1 := amountClean1 text
    let sign : ℚ :=
      if amountSuffix c1 && signed && c1.getLastD ' ' = 'H' then -1 else 1
    match pyFloat? (String.mk (amountCleaned text)) with
    | some q => sign * q
    | none => 0

/-! #### row filter and page extraction -/

/-- Fragment `\s*\d{2}$` of `konto_re` (after the whitespace run there must be
exactly two digits, then the end of the string). -/
def kontoEnd : List Char → Option Nat
  | [a, b] => if isDigitPy a && isDigitPy b then some 2 else none
  | _ => none

/-- Fragment `^\d{d}` then `\s*\d{2}$`. -/
def kontoFrom (d : Nat) (cs : List Char) : Option Nat :=
  let ds := cs.take d
  if ds.length = d && ds.all isDigitPy then (wsStarThen kontoEnd (cs.drop d)).map (· + d)
  else none

/-- Model of `konto_re = ^\d{3,4}\s*\d{2}$` (`\d{3,4}` greedy: four digits first). -/
def kontoAccept (s : String) : Bool :=
  (kontoFrom 4 s.toList).isSome || (kontoFrom 3 s.toList).isSome

structure SusaRow where
  konto : String
  beschriftung : String
  ebWert : ℚ
  oktSoll : ℚ
  oktHaben : ℚ
  kumSoll : ℚ
  kumHaben : ℚ
  saldo : ℚ
  deriving DecidableEq, Repr

/-- Body of the per-line loop of `parse_pdf`: slice the columns, apply the
account-number filter, build the row dict. -/
def susaRowOfLine (chars : List PyChar) : Option SusaRow :=
  let cols := slice_columns chars
  let konto := pyStrip (colOf cols "Konto")
  if kontoAccept konto then
    some
      { konto := konto
        beschriftung := colOf cols "Beschriftung"
        ebWert := parse_amount (colOf cols "EB-Wert") true
        oktSoll := parse_amount (colOf cols "Okt 2025 Soll") false
        oktHaben := parse_amount (colOf cols "Okt 2025 Haben") false
        kumSoll := parse_amount (colOf cols "Kum Werte Soll") false
        kumHaben := parse_amount (colOf cols "Kum Werte Haben") false
        saldo := parse_amount (colOf cols "Saldo") true }
  else none

def susaGo : List (ℚ × List PyChar) → List SusaRow
  | [] => []
  | (_, lc) :: rest =>
    match susaRowOfLine lc with
    | none => susaGo rest
    | some r => r :: susaGo rest

/-- Extraction of one page in `parse_pdf`. -/
def parse_page (glyphs : List PyChar) : List SusaRow :=
  susaGo (collect_lines glyphs 1)

/-- Extraction over the selected pages of `parse_pdf` (the per-page loops
append into one row list). -/
def parse_pdf_rows (pages : List (List PyChar)) : List SusaRow :=
  match pages with
  | [] => []
  | p :: ps => parse_page p ++ parse_pdf_rows ps

/-- The start/end-index computation and validation of `parse_pdf`
(lines 109–118 of the source). -/
def rangeCheck (total_pages : Nat) (s e : Int) : Except String (Int × Int) :=
  let start_idx := max (s - 1) 0
  let end_idx := min e (total_pages : Int)
  if start_idx ≥ (total_pages : Int) then
    Except.error ("Startseite " ++ toString s ++ " liegt ausserhalb der PDF mit " ++
      toString total_pages ++ " Seiten.")
  else if end_idx ≤ start_idx then
    Except.error ("Endseite " ++ toString e ++ " muss groesser als Startseite " ++
      toString s ++ " sein.")
  else Except.ok (start_idx, end_idx)

/-- The page-range resolution of `parse_pdf`: when both pages are `None`
the result of `find_susa_page_range` (a page-content search, supplied here
as a parameter) is used; a missing start defaults to 1 and a missing end to
the page count.  The source quotes the marker phrase in the error message. -/
def parse_pdf_range (total_pages : Nat) (start_page end_page : Option Int)
    (search_result : Option (Int × Int)) : Except String (Int × Int) :=
  match start_page, end_page with
  | none, none =>
    match search_result with
    | none => Except.error "Keine Seite mit Summen und Salden in der PDF gefunden."
    | some (s, e) => rangeCheck total_pages s e
  | sp, ep => rangeCheck total_pages (sp.getD 1) (ep.getD (total_pages : Int))

/-! ### Lemmas about blank-row compression -/

/-- No two adjacent rows are both blank. -/
def noAdjBlank : List Row → Bool
  | a :: b :: t => !(isBlankB a && isBlankB b) && noAdjBlank (b :: t)
  | _ => true

theorem noAdjBlank_tail {a : Row} {t : List Row} (h : noAdjBlank (a :: t) = true) :
    noAdjBlank t = true := by
  cases t with
  | nil => rfl
  | cons b t' => simp [noAdjBlank] at h; exact h.2

theorem compressGo_true_head (l : List Row) :
    ∀ r rs, compressGo true l = r :: rs → isBlankB r = false := by
  induction l with
  | nil => intro r rs h; simp [compressGo] at h
  | cons a t ih =>
    intro r rs h
    by_cases ha : isBlankB a
    · rw [compressGo, if_pos (by simp [ha])] at h
      exact ih r rs h
    · rw [compressGo, if_neg (by simp [ha])] at h
      obtain ⟨rfl, -⟩ := List.cons.injEq .. ▸ h
      simpa using ha

theorem noAdjBlank_compressGo (l : List Row) : ∀ b, noAdjBlank (compressGo b l) = true := by
  induction l with
  | nil => intro b; rfl
  | cons a t ih =>
    intro b
    by_cases hab : isBlankB a && b
    · rw [compressGo, if_pos hab]; exact ih b
    · rw [compressGo, if_neg hab]
      cases hc : compressGo (isBlankB a) t with
      | nil => rfl
      | cons x xs =>
        have hrest : noAdjBlank (x :: xs) = true := hc ▸ ih (isBlankB a)
        by_cases ha : isBlankB a
        · have hx : isBlankB x = false := compressGo_true_head t x xs (by rwa [ha] at hc)
          simp [noAdjBlank, hx, hrest]
        · simp [noAdjBlank, ha, hrest]

theorem compressGo_false_of_noAdj : ∀ l : List Row, noAdjBlank l = true → compressGo false l = l := by
  intro l
  induction l with
  | nil => intro _; rfl
  | cons a t ih =>
    intro h
    have ht : noAdjBlank t = true := noAdjBlank_tail h
    rw [compressGo, if_neg (by simp)]
    by_cases ha : isBlankB a
    · cases t with
      | nil => simp [compressGo]
      | cons y ys =>
        have hy : isBlankB y = false := by
          simp [noAdjBlank, ha] at h; simpa using h.1
        have ihy := ih ht
        rw [compressGo, if_neg (by simp)] at ihy
        have hys : compressGo (isBlankB y) ys = ys := (List.cons.injEq .. ▸ ihy).2
        rw [ha, compressGo, if_neg (by simp [hy]), hy] at *
        simp [hys]
    · have ha' : isBlankB a = false := by simpa using ha
      rw [ha']
      simp [ih ht]

/-- C9: blank-run compression is idempotent: applying `compress_blank_rows`
twice yields the same row sequence as applying it once. -/
theorem compress_blank_rows_idem (rows : List Row) :
    compress_blank_rows (compress_blank_rows rows) = compress_blank_rows rows :=
  compressGo_false_of_noAdj _ (noAdjBlank_compressGo rows false)

theorem replicate_all_empty (n : Nat) : (List.replicate n "").all (· = "") = true := by
  induction n with
  | zero => rfl
  | succ k ih => simp [List.replicate, ih]

theorem blankRow_isBlank (n : Nat) : isBlankB (blankRow n) = true := by
  simp [isBlankB, blankRow, replicate_all_empty]

theorem insertGo_ne_nil (n : Nat) : ∀ rows : List Row, insertGo rows n ≠ [] := by
  intro rows
  cases rows with
  | nil => simp [insertGo]
  | cons r rs =>
    rw [insertGo]
    split <;> simp

theorem insertGo_getLast (n : Nat) :
    ∀ rows : List Row, (insertGo rows n).getLast? = some (blankRow n) := by
  intro rows
  induction rows with
  | nil => rfl
  | cons r rs ih =>
    rw [insertGo]
    cases hc : insertGo rs n with
    | nil => exact absurd hc (insertGo_ne_nil n rs)
    | cons x xs =>
      rw [hc] at ih
      split
      · rw [List.getLast?_cons_cons, List.getLast?_cons_cons]; exact ih
      · rw [List.getLast?_cons_cons]; exact ih

theorem compressGo_eq_nil :
    ∀ (l : List Row) (b : Bool), compressGo b l = [] → ∀ r ∈ l, isBlankB r = true := by
  intro l
  induction l with
  | nil => intro b _ r hr; simp at hr
  | cons a t ih =>
    intro b h r hr
    by_cases hab : isBlankB a && b
    · rw [compressGo, if_pos hab] at h
      rcases hr with _ | hr
      · exact (Bool.and_eq_true _ _ ▸ hab).1
      · exact ih b h r (by assumption)
    · rw [compressGo, if_neg hab] at h
      simp at h

theorem compressGo_getLast :
    ∀ (l : List Row) (b : Bool),
      (∀ x, l.getLast? = some x → isBlankB x = true) →
      ∀ y, (compressGo b l).getLast? = some y → isBlankB y = true := by
  intro l
  induction l with
  | nil => intro b _ y hy; simp [compressGo] at hy
  | cons a t ih =>
    intro b hlast y hy
    by_cases hab : isBlankB a && b
    · rw [compressGo, if_pos hab] at hy
      cases t with
      | nil => simp [compressGo] at hy
      | cons z zs =>
        exact ih b (fun x hx => hlast x (by rwa [List.getLast?_cons_cons])) y hy
    · rw [compressGo, if_neg hab] at hy
      cases t with
      | nil =>
        simp [compressGo] at hy
        subst hy
        exact hlast _ rfl
      | cons z zs =>
        cases hc : compressGo (isBlankB a) (z :: zs) with
        | nil =>
          rw [hc] at hy
          simp at hy
          subst hy
          have hz : ∀ r ∈ z :: zs, isBlankB r = true := compressGo_eq_nil _ _ hc
          -- the whole tail vanished, so it consisted of blanks skipped with
          -- prev_blank set, which forces `a` itself to be blank
          rw [compressGo] at hc
          by_cases hza : isBlankB z && isBlankB a
          · exact (Bool.and_eq_true _ _ ▸ hza).2
          · rw [if_neg hza] at hc; simp at hc
        | cons w ws =>
          rw [hc, List.getLast?_cons_cons] at hy
          have := ih (isBlankB a)
            (fun x hx => hlast x (by rwa [List.getLast?_cons_cons])) y
          rw [hc] at this
          exact this hy

/-- C10: after section-break insertion followed by blank-run compression the
row sequence is nonempty, begins and ends with a blank row, contains no two
adjacent blank rows, and the empty input yields exactly one blank row. -/
theorem insert_compress_structure (rows : List Row) (n : Nat) :
    (∃ h t, compress_blank_rows (insert_section_breaks rows n) = h :: t ∧ isBlankB h = true) ∧
    (∃ y, (compress_blank_rows (insert_section_breaks rows n)).getLast? = some y ∧
      isBlankB y = true) ∧
    noAdjBlank (compress_blank_rows (insert_section_breaks rows n)) = true ∧
    compress_blank_rows (insert_section_breaks [] n) = [blankRow n] := by
  have hins : insert_section_breaks rows n = blankRow n :: insertGo rows n := rfl
  have hhead : compress_blank_rows (insert_section_breaks rows n) =
      blankRow n :: compressGo true (insertGo rows n) := by
    rw [hins, compress_blank_rows, compressGo, if_neg (by simp), blankRow_isBlank]
  refine ⟨⟨blankRow n, _, hhead, blankRow_isBlank n⟩, ?_, ?_, ?_⟩
  · have hlast : ∀ x, (insert_section_breaks rows n).getLast? = some x → isBlankB x = true := by
      intro x hx
      rw [hins] at hx
      cases hc : insertGo rows n with
      | nil => exact absurd hc (insertGo_ne_nil n rows)
      | cons z zs =>
        rw [hc, List.getLast?_cons_cons] at hx
        have := insertGo_getLast n rows
        rw [hc, hx] at this
        obtain rfl : x = blankRow n := by injection this
        exact blankRow_isBlank n
    cases hc : (compress_blank_rows (insert_section_breaks rows n)).getLast? with
    | none =>
      rw [hhead] at hc
      cases h2 : compressGo true (insertGo rows n) with
      | nil => rw [h2] at hc; simp at hc
      | cons w ws => rw [h2, List.getLast?_cons_cons] at hc; simp at hc
    | some y =>
      exact ⟨y, rfl, compressGo_getLast _ false hlast y hc⟩
  · exact noAdjBlank_compressGo _ false
  · rw [compress_blank_rows, insert_section_breaks, insertGo, compressGo,
      if_neg (by simp), compressGo, if_pos (by simp [blankRow_isBlank]), compressGo]

/-! ### Table assembly (C5) and page-range validation (C4) -/

theorem outputRows_length (header : List String) :
    ∀ rs : List Row, (outputRows header rs).length = rs.length := by
  intro rs
  induction rs with
  | nil => rfl
  | cons r t ih => cases r with | mk label values => simp [outputRows, ih]

/-- C5: `build_output_table` fails if and only if a structure reference is
supplied whose row count differs from the assembled row count; the error
message carries both counts; on success the columns are the label column
followed by the header tokens and the row count is preserved. -/
theorem build_output_table_spec (header : List String) (final_rows : List Row)
    (sn : Option (List String)) :
    ((∃ msg, build_output_table header final_rows sn = Except.error msg) ↔
      ∃ l, sn = some l ∧ l.length ≠ final_rows.length) ∧
    (∀ l, sn = some l → l.length ≠ final_rows.length →
      build_output_table header final_rows sn =
        Except.error ("Struktur hat " ++ toString l.length ++ " Zeilen, Ergebnis hat " ++
          toString final_rows.length ++ " Zeilen.")) ∧
    (∀ cols outRows, build_output_table header final_rows sn = Except.ok (cols, outRows) →
      cols = "Bezeichnung" :: header ∧ outRows.length = final_rows.length) := by
  refine ⟨?_, ?_, ?_⟩
  · constructor
    · rintro ⟨msg, hmsg⟩
      cases sn with
      | none => simp [build_output_table] at hmsg
      | some l =>
        by_cases h : l.length = final_rows.length
        · simp [build_output_table, h] at hmsg
        · exact ⟨l, rfl, h⟩
    · rintro ⟨l, rfl, h⟩
      exact ⟨"Struktur hat " ++ toString l.length ++ " Zeilen, Ergebnis hat " ++
        toString final_rows.length ++ " Zeilen.", by simp [build_output_table, h]⟩
  · rintro l rfl h
    simp [build_output_table, h]
  · intro cols outRows h
    cases sn with
    | none =>
      simp [build_output_table] at h
      exact ⟨h.1.symm, by rw [← h.2, outputRows_length]⟩
    | some l =>
      by_cases hl : l.length = final_rows.length
      · simp [build_output_table, hl] at h
        exact ⟨h.1.symm, by rw [← h.2, outputRows_length]⟩
      · simp [build_output_table, hl] at h

/-- Witness for C5 at the spec's end-to-end scenario B: a 45-entry structure
reference against 44 assembled rows produces the error citing 45 vs 44. -/
theorem build_output_table_spec_witness :
    build_output_table ["h"] (List.replicate 44 ("A", ["1"])) (some (List.replicate 45 "x")) =
      Except.error "Struktur hat 45 Zeilen, Ergebnis hat 44 Zeilen." := by
  rw [(build_output_table_spec ["h"] (List.replicate 44 ("A", ["1"]))
    (some (List.replicate 45 "x"))).2.1 (List.replicate 45 "x") rfl (by decide)]
  rfl

/-- C4 (amended): Pipeline A rejects a supplied page number below 1 (with a
message that does not cite the bounds) and one beyond the page count (citing
requested vs actual); Pipeline B errors exactly when the clamped start index
reaches the page count or the clamped range is empty — a start page below 1
and an end page beyond the page count are clamped, not rejected. -/
theorem page_range_validation (total : Nat) (p s e : Int) (sr : Option (Int × Int)) :
    ((∃ msg, convert_page_check total p = Except.error msg) ↔ p < 1 ∨ (total : Int) < p) ∧
    ((total : Int) < p → 1 ≤ p →
      convert_page_check total p =
        Except.error ("PDF hat nur " ++ toString total ++ " Seiten, angefragt wurde " ++
          toString p ++ ".")) ∧
    (p < 1 → convert_page_check total p = Except.error "page_number muss 1-basiert sein") ∧
    (parse_pdf_range total (some s) (some e) sr = rangeCheck total s e) ∧
    ((∃ msg, rangeCheck total s e = Except.error msg) ↔
      (total : Int) ≤ max (s - 1) 0 ∨ min e (total : Int) ≤ max (s - 1) 0) ∧
    (∀ i j, rangeCheck total s e = Except.ok (i, j) →
      i = max (s - 1) 0 ∧ j = min e (total : Int)) := by
  refine ⟨?_, ?_, ?_, rfl, ?_, ?_⟩
  · constructor
    · rintro ⟨msg, hmsg⟩
      by_cases h1 : p < 1
      · exact Or.inl h1
      · by_cases h2 : p > (total : Int)
        · exact Or.inr h2
        · simp [convert_page_check, h1, h2] at hmsg
    · intro h
      rcases h with h1 | h2
      · exact ⟨"page_number muss 1-basiert sein", by simp [convert_page_check, h1]⟩
      · by_cases h1 : p < 1
        · exact ⟨"page_number muss 1-basiert sein", by simp [convert_page_check, h1]⟩
        · exact ⟨"PDF hat nur " ++ toString total ++ " Seiten, angefragt wurde " ++
            toString p ++ ".", by simp [convert_page_check, h1, h2]⟩
  · intro h2 h1
    have h1' : ¬ p < 1 := by omega
    simp [convert_page_check, h1', h2]
  · intro h1
    simp [convert_page_check, h1]
  · constructor
    · rintro ⟨msg, hmsg⟩
      by_cases hs : max (s - 1) 0 ≥ (total : Int)
      · exact Or.inl hs
      · by_cases he : min e (total : Int) ≤ max (s - 1) 0
        · exact Or.inr he
        · simp only [rangeCheck] at hmsg
          rw [if_neg (by omega), if_neg (by omega)] at hmsg
          simp at hmsg
    · intro h
      by_cases hs : max (s - 1) 0 ≥ (total : Int)
      · exact ⟨"Startseite " ++ toString s ++ " liegt ausserhalb der PDF mit " ++
          toString total ++ " Seiten.", by simp only [rangeCheck]; rw [if_pos (by omega)]⟩
      · have he : min e (total : Int) ≤ max (s - 1) 0 := by
          rcases h with h | h
          · omega
          · exact h
        exact ⟨"Endseite " ++ toString e ++ " muss groesser als Startseite " ++
          toString s ++ " sein.", by simp only [rangeCheck]; rw [if_neg (by omega), if_pos (by omega)]⟩
  · intro i j h
    by_cases hs : max (s - 1) 0 ≥ (total : Int)
    · simp only [rangeCheck] at h; rw [if_pos (by omega)] at h; simp at h
    · by_cases he : min e (total : Int) ≤ max (s - 1) 0
      · simp only [rangeCheck] at h
        rw [if_neg (by omega), if_pos (by omega)] at h
        simp at h
      · simp only [rangeCheck] at h
        rw [if_neg (by omega), if_neg (by omega)] at h
        simp at h
        exact ⟨h.1.symm, h.2.symm⟩

/-- C4 counterexample: a caller-supplied start page of 0 (below 1) and an end
page of 99 against a 5-page document are silently clamped by Pipeline B, not
rejected. -/
theorem page_range_clamps_cex :
    ((0 : Int) < 1 ∧ parse_pdf_range 5 (some 0) (some 2) none = Except.ok (0, 2)) ∧
    ((5 : Int) < 99 ∧ parse_pdf_range 5 (some 1) (some 99) none = Except.ok (0, 5)) :=
  ⟨⟨by decide, rfl⟩, ⟨by decide, rfl⟩⟩

/-- Witness for C4 at a concrete out-of-range request in Pipeline A. -/
theorem page_range_validation_witness :
    convert_page_check 5 7 = Except.error "PDF hat nur 5 Seiten, angefragt wurde 7." := by
  rw [(page_range_validation 5 7 0 0 none).2.1 (by decide) (by decide)]
  rfl

/-- C6: the `parse_amount` test vectors, and total fallback to zero: whenever
the cleaned text is not parseable as a float the result is 0 (no exception
escapes). -/
theorem parse_amount_spec :
    parse_amount "1.234,56" false = (1234.56 : ℚ) ∧
    parse_amount "" true = 0 ∧
    parse_amount "50,00H" true = (-50.0 : ℚ) ∧
    parse_amount "50,00H" false = (50.0 : ℚ) ∧
    ∀ text signed, pyFloat? (String.mk (amountCleaned text)) = none →
      parse_amount text signed = 0 := by
  refine ⟨?_, rfl, ?_, ?_, ?_⟩
  · simp +decide [parse_amount, amountCleaned, amountClean1, amountSuffix, pyFloat?,
      floatAfterSign, floatExp, expPart, digitsNatVal, isDigitPy, isSpacePy]
    norm_num
  · simp +decide [parse_amount, amountCleaned, amountClean1, amountSuffix, pyFloat?,
      floatAfterSign, floatExp, expPart, digitsNatVal, isDigitPy, isSpacePy]
    norm_num
  · simp +decide [parse_amount, amountCleaned, amountClean1, amountSuffix, pyFloat?,
      floatAfterSign, floatExp, expPart, digitsNatVal, isDigitPy, isSpacePy]
    norm_num
  intro text signed h
  by_cases ht : text = ""
  · simp [parse_amount, ht]
  · simp [parse_amount, ht, h]

/-- Witness for C6's fallback clause at an unparseable cell text. -/
theorem parse_amount_spec_witness :
    pyFloat? (String.mk (amountCleaned "12,3,4")) = none ∧ parse_amount "12,3,4" true = 0 :=
  ⟨by decide, parse_amount_spec.2.2.2.2 "12,3,4" true (by decide)⟩

/-! ### Sentinel insertion (C8) -/

theorem firstIdx_none {α : Type} (p : α → Bool) :
    ∀ l : List α, firstIdx p l = none → ∀ x ∈ l, p x = false := by
  intro l
  induction l with
  | nil => intro _ x hx; simp at hx
  | cons a t ih =>
    intro h x hx
    by_cases ha : p a
    · simp [firstIdx, ha] at h
    · simp [firstIdx, ha] at h
      rcases List.mem_cons.mp hx with rfl | hx'
      · simpa using ha
      · exact ih h x hx'

theorem firstIdx_some {α : Type} (p : α → Bool) :
    ∀ (l : List α) (i : Nat), firstIdx p l = some i →
      (∃ x, l.get? i = some x ∧ p x = true) ∧
      ∀ j, j < i → ∀ y, l.get? j = some y → p y = false := by
  intro l
  induction l with
  | nil => intro i h; simp [firstIdx] at h
  | cons a t ih =>
    intro i h
    by_cases ha : p a
    · simp [firstIdx, ha] at h
      subst h
      exact ⟨⟨a, rfl, ha⟩, fun j hj => by omega⟩
    · simp [firstIdx, ha] at h
      obtain ⟨i', hi', rfl⟩ := h
      obtain ⟨⟨x, hx, hpx⟩, hmin⟩ := ih i' hi'
      refine ⟨⟨x, by rw [List.get?_cons_succ]; exact hx, hpx⟩, ?_⟩
      intro j hj y hy
      cases j with
      | zero =>
        rw [List.get?_cons_zero] at hy
        obtain rfl : a = y := by injection hy
        simpa using ha
      | succ j' =>
        rw [List.get?_cons_succ] at hy
        exact hmin j' (by omega) y hy

/-- C8 (amended): sentinel insertion never duplicates the sentinel — a row
sequence already containing a row labelled `"Kostenarten:"` is returned
unchanged; otherwise, when some row's label lies in the cost-category set, a
sentinel row labelled `"Kostenarten:"` (not with an empty label) carrying N
empty values is inserted immediately before the first such row, and when no
such row exists the sequence is returned unchanged. -/
theorem ensure_kostenarten_spec (rows : List Row) (months : List String) :
    ("Kostenarten:" ∈ rows.map Prod.fst → ensure_kostenarten rows months = rows) ∧
    ("Kostenarten:" ∉ rows.map Prod.fst →
      (firstIdx (fun r => decide (r.1 ∈ COST_LABELS)) rows = none →
        ensure_kostenarten rows months = rows) ∧
      (∀ i, firstIdx (fun r => decide (r.1 ∈ COST_LABELS)) rows = some i →
        ensure_kostenarten rows months =
          rows.take i ++ [("Kostenarten:", List.replicate months.length "")] ++ rows.drop i ∧
        (∃ r, rows.get? i = some r ∧ r.1 ∈ COST_LABELS) ∧
        (∀ j, j < i → ∀ r, rows.get? j = some r → r.1 ∉ COST_LABELS))) := by
  constructor
  · intro h
    simp [ensure_kostenarten, h]
  · intro h
    constructor
    · intro hnone
      simp [ensure_kostenarten, h, hnone]
    · intro i hi
      obtain ⟨⟨r, hr, hpr⟩, hmin⟩ := firstIdx_some _ rows i hi
      refine ⟨by simp [ensure_kostenarten, h, hi], ⟨r, hr, by simpa using hpr⟩, ?_⟩
      intro j hj r' hr'
      have := hmin j hj r' hr'
      simpa using this

/-- C8 counterexample: on a single cost-category row the inserted sentinel
row is `("Kostenarten:", [""])` — its label is the sentinel heading, not the
empty string the claim describes. -/
theorem ensure_kostenarten_cex :
    ensure_kostenarten [("Personalkosten", ["0,00"])] ["M"] =
      [("Kostenarten:", [""]), ("Personalkosten", ["0,00"])] ∧
    (("Kostenarten:" : String) == "") = false := by decide

/-- Witness for C8: a sequence already containing the sentinel is unchanged. -/
theorem ensure_kostenarten_spec_witness :
    ensure_kostenarten [("Kostenarten:", [""]), ("Personalkosten", ["0,00"])] ["M"] =
      [("Kostenarten:", [""]), ("Personalkosten", ["0,00"])] :=
  (ensure_kostenarten_spec [("Kostenarten:", [""]), ("Personalkosten", ["0,00"])] ["M"]).1
    (by decide)

/-! ### Month-header detection (C1) -/

theorem dedupSeen_not_mem_seen {α : Type} [DecidableEq α] :
    ∀ (l seen : List α) (x : α), x ∈ dedupSeen seen l → x ∉ seen := by
  intro l
  induction l with
  | nil => intro seen x hx; simp [dedupSeen] at hx
  | cons a t ih =>
    intro seen x hx
    by_cases ha : a ∈ seen
    · rw [dedupSeen, if_pos ha] at hx
      exact ih seen x hx
    · rw [dedupSeen, if_neg ha] at hx
      rcases List.mem_cons.mp hx with rfl | hx'
      · exact ha
      · intro hxs
        exact ih (a :: seen) x hx' (List.mem_cons_of_mem a hxs)

theorem dedupSeen_nodup {α : Type} [DecidableEq α] :
    ∀ (l seen : List α), (dedupSeen seen l).Nodup := by
  intro l
  induction l with
  | nil => intro seen; simp [dedupSeen]
  | cons a t ih =>
    intro seen
    by_cases ha : a ∈ seen
    · rw [dedupSeen, if_pos ha]; exact ih seen
    · rw [dedupSeen, if_neg ha]
      refine List.nodup_cons.mpr ⟨?_, ih (a :: seen)⟩
      intro hmem
      exact dedupSeen_not_mem_seen t (a :: seen) a hmem (List.mem_cons_self a seen)

theorem extract_month_tokens_nodup (s : String) : (extract_month_tokens s).Nodup :=
  dedupSeen_nodup _ []

theorem lastN_length (l : List String) (h : 13 ≤ l.length) : (lastN 13 l).length = 13 := by
  simp [lastN, List.length_drop]
  omega

theorem lastN_nodup (l : List String) (h : l.Nodup) : (lastN 13 l).Nodup :=
  h.sublist (List.drop_sublist _ _)

theorem bezScan_some :
    ∀ (ls : List String) (hdr : List String), bezScan ls = some hdr →
      ∃ line ∈ ls, containsSub line "Bezeichnung" = true ∧
        13 ≤ (extract_month_tokens line).length ∧
        hdr = lastN 13 (extract_month_tokens line) := by
  intro ls
  induction ls with
  | nil => intro hdr h; simp [bezScan] at h
  | cons line rest ih =>
    intro hdr h
    by_cases hb : containsSub line "Bezeichnung"
    · by_cases hlen : 13 ≤ (extract_month_tokens line).length
      · rw [bezScan, if_pos hb, if_pos hlen] at h
        obtain rfl : lastN 13 (extract_month_tokens line) = hdr := by injection h
        exact ⟨line, List.mem_cons_self _ _, hb, hlen, rfl⟩
      · rw [bezScan, if_pos hb, if_neg hlen] at h
        obtain ⟨l', hl', hrest⟩ := ih hdr h
        exact ⟨l', List.mem_cons_of_mem _ hl', hrest⟩
    · rw [bezScan, if_neg hb] at h
      obtain ⟨l', hl', hrest⟩ := ih hdr h
      exact ⟨l', List.mem_cons_of_mem _ hl', hrest⟩

theorem bezScan_none_iff :
    ∀ ls : List String, bezScan ls = none ↔
      ∀ line ∈ ls, containsSub line "Bezeichnung" = true →
        (extract_month_tokens line).length < 13 := by
  intro ls
  induction ls with
  | nil => simp [bezScan]
  | cons line rest ih =>
    constructor
    · intro h l' hl' hb
      by_cases hbl : containsSub line "Bezeichnung"
      · by_cases hlen : 13 ≤ (extract_month_tokens line).length
        · rw [bezScan, if_pos hbl, if_pos hlen] at h; simp at h
        · rw [bezScan, if_pos hbl, if_neg hlen] at h
          rcases List.mem_cons.mp hl' with rfl | hl''
          · omega
          · exact ih.mp h l' hl'' hb
      · rw [bezScan, if_neg hbl] at h
        rcases List.mem_cons.mp hl' with rfl | hl''
        · exact absurd hb hbl
        · exact ih.mp h l' hl'' hb
    · intro h
      by_cases hbl : containsSub line "Bezeichnung"
      · have hlen : (extract_month_tokens line).length < 13 :=
          h line (List.mem_cons_self _ _) hbl
        rw [bezScan, if_pos hbl, if_neg (by omega)]
        exact ih.mpr (fun l' hl' hb => h l' (List.mem_cons_of_mem _ hl') hb)
      · rw [bezScan, if_neg hbl]
        exact ih.mpr (fun l' hl' hb => h l' (List.mem_cons_of_mem _ hl') hb)

/-- Shared with the C7 pipeline proof: a detected header has exactly 13
pairwise-distinct tokens. -/
theorem detect_month_header_shape (text : String) (hdr : List String)
    (h : detect_month_header text = some hdr) : hdr.length = 13 ∧ hdr.Nodup := by
  rw [detect_month_header] at h
  cases hbez : bezScan (splitlines text) with
  | some hdr' =>
    rw [hbez] at h
    obtain rfl : hdr' = hdr := by injection h
    obtain ⟨line, _, _, hlen, rfl⟩ := bezScan_some _ hdr' hbez
    exact ⟨lastN_length _ hlen, lastN_nodup _ (extract_month_tokens_nodup line)⟩
  | none =>
    rw [hbez] at h
    by_cases hlen : 13 ≤ (extract_month_tokens text).length
    · rw [if_pos hlen] at h
      obtain rfl : lastN 13 (extract_month_tokens text) = hdr := by injection h
      exact ⟨lastN_length _ hlen, lastN_nodup _ (extract_month_tokens_nodup text)⟩
    · rw [if_neg hlen] at h
      simp at h

/-- C1: whenever the detector returns a header it has exactly 13 tokens,
pairwise distinct under normalization, equal to the last 13 of the
first-appearance-ordered token list of some anchored line or of the whole
text; and it returns no header exactly when every line containing
"Bezeichnung" and the whole text each yield fewer than 13 distinct
normalized month tokens. -/
theorem detect_month_header_spec (text : String) :
    (∀ hdr, detect_month_header text = some hdr →
      hdr.length = 13 ∧ hdr.Nodup ∧
      ∃ toks, 13 ≤ toks.length ∧ hdr = lastN 13 toks ∧
        (toks = extract_month_tokens text ∨
         ∃ line ∈ splitlines text, containsSub line "Bezeichnung" = true ∧
           toks = extract_month_tokens line)) ∧
    (detect_month_header text = none ↔
      (extract_month_tokens text).length < 13 ∧
      ∀ line ∈ splitlines text, containsSub line "Bezeichnung" = true →
        (extract_month_tokens line).length < 13) := by
  constructor
  · intro hdr h
    obtain ⟨hlen13, hnd⟩ := detect_month_header_shape text hdr h
    refine ⟨hlen13, hnd, ?_⟩
    rw [detect_month_header] at h
    cases hbez : bezScan (splitlines text) with
    | some hdr' =>
      rw [hbez] at h
      obtain rfl : hdr' = hdr := by injection h
      obtain ⟨line, hline, hb, hlen, rfl⟩ := bezScan_some _ hdr' hbez
      exact ⟨extract_month_tokens line, hlen, rfl, Or.inr ⟨line, hline, hb, rfl⟩⟩
    | none =>
      rw [hbez] at h
      by_cases hlen : 13 ≤ (extract_month_tokens text).length
      · rw [if_pos hlen] at h
        obtain rfl : lastN 13 (extract_month_tokens text) = hdr := by injection h
        exact ⟨extract_month_tokens text, hlen, rfl, Or.inl rfl⟩
      · rw [if_neg hlen] at h
        simp at h
  · rw [detect_month_header]
    cases hbez : bezScan (splitlines text) with
    | some hdr' =>
      simp only []
      constructor
      · intro h; simp at h
      · intro ⟨_, hall⟩
        obtain ⟨line, hline, hb, hlen, _⟩ := bezScan_some _ hdr' hbez
        have := hall line hline hb
        omega
    | none =>
      simp only []
      by_cases hlen : 13 ≤ (extract_month_tokens text).length
      · rw [if_pos hlen]
        constructor
        · intro h; simp at h
        · intro ⟨h1, _⟩; omega
      · rw [if_neg hlen]
        constructor
        · intro _
          exact ⟨by omega, (bezScan_none_iff _).mp hbez⟩
        · intro _; rfl

def headerTextW : String :=
  "Jan 24 Feb 24 März 24 Apr 24 Mai 24 Jun 24 Jul 24 Aug 24 Sep 24 Okt 24 Nov 24 Dez 24 Jan 25"

def headerW : List String :=
  ["Jan 24", "Feb 24", "März 24", "Apr 24", "Mai 24", "Jun 24", "Jul 24", "Aug 24",
   "Sep 24", "Okt 24", "Nov 24", "Dez 24", "Jan 25"]

/-- Witness for C1: a page text with 13 distinct month tokens yields exactly
that header. -/
theorem detect_month_header_spec_witness :
    detect_month_header headerTextW = some headerW ∧ headerW.length = 13 ∧ headerW.Nodup :=
  ⟨by decide, ((detect_month_header_spec headerTextW).1 headerW (by decide)).1,
    ((detect_month_header_spec headerTextW).1 headerW (by decide)).2.1⟩

/-! ### Row extraction (C2) -/

theorem pyLastSlice_length {α : Type} (k : Nat) (l : List α) (hk : 0 < k)
    (hl : k ≤ l.length) : (pyLastSlice k l).length = k := by
  rw [pyLastSlice, if_neg (by omega)]
  simp [List.length_drop]
  omega

theorem strFindAux_spec (needle : List Char) :
    ∀ (cs : List Char) (p : Nat),
      (strFindAux needle cs p = -1 ∧ ∀ q, startsList needle (cs.drop q) = false) ∨
      (∃ j : Nat, strFindAux needle cs p = ((p + j : Nat) : Int) ∧
        startsList needle (cs.drop j) = true ∧
        ∀ q, q < j → startsList needle (cs.drop q) = false) := by
  intro cs
  induction cs with
  | nil =>
    intro p
    by_cases h : startsList needle [] = true
    · exact Or.inr ⟨0, by simp [strFindAux, h], by simpa using h, fun q hq => by omega⟩
    · refine Or.inl ⟨by simp [strFindAux, h], fun q => ?_⟩
      simpa using h
  | cons c t ih =>
    intro p
    by_cases h0 : startsList needle (c :: t) = true
    · exact Or.inr ⟨0, by simp [strFindAux, h0], h0, fun q hq => by omega⟩
    · rcases ih (p + 1) with ⟨heq, hall⟩ | ⟨j, heq, hyes, hmin⟩
      · refine Or.inl ⟨by simp [strFindAux, h0, heq], fun q => ?_⟩
        cases q with
        | zero => simpa using h0
        | succ q' => simpa using hall q'
      · refine Or.inr ⟨j + 1, ?_, by simpa using hyes, ?_⟩
        · rw [strFindAux, if_neg h0, heq]
          norm_num
          omega
        · intro q hq
          cases q with
          | zero => simpa using h0
          | succ q' => simpa using hmin q' (by omega)

/-- C2 (amended): a stripped, non-sentinel line with at least N numeric
tokens yields the last N tokens as values, and the label is everything
before the FIRST occurrence in the line of the first retained token's text
(`str.find`), which may lie before the retained token itself when equal
text occurs earlier in the line. -/
theorem rowOfLine_spec (months : List String) (raw : String)
    (hm : 0 < months.length)
    (h1 : pyStrip raw ≠ "") (h2 : pyStrip raw ≠ "Kostenarten:")
    (hc : months.length ≤ (DE_findall (pyStrip raw)).length) :
    ∃ first_num,
      (pyLastSlice months.length (DE_findall (pyStrip raw))).head? = some first_num ∧
      rowOfLine months raw =
        some (pyStrip (pyTakeInt (pyStrip raw) (strFind (pyStrip raw) first_num)),
          pyLastSlice months.length (DE_findall (pyStrip raw))) ∧
      (pyLastSlice months.length (DE_findall (pyStrip raw))).length = months.length ∧
      (∀ q : Nat, startsList first_num.toList ((pyStrip raw).toList.drop q) = true →
        strFind (pyStrip raw) first_num ≤ (q : Int)) ∧
      (0 ≤ strFind (pyStrip raw) first_num →
        startsList first_num.toList
          ((pyStrip raw).toList.drop (strFind (pyStrip raw) first_num).toNat) = true) := by
  have hlen : (pyLastSlice months.length (DE_findall (pyStrip raw))).length = months.length :=
    pyLastSlice_length _ _ hm hc
  obtain ⟨first_num, vrest, hv⟩ :
      ∃ x xs, pyLastSlice months.length (DE_findall (pyStrip raw)) = x :: xs := by
    cases hval : pyLastSlice months.length (DE_findall (pyStrip raw)) with
    | nil => rw [hval] at hlen; simp at hlen; omega
    | cons x xs => exact ⟨x, xs, rfl⟩
  have hhead : (pyLastSlice months.length (DE_findall (pyStrip raw))).head? = some first_num := by
    rw [hv]; rfl
  refine ⟨first_num, hhead, ?_, hlen, ?_, ?_⟩
  · rw [rowOfLine]
    simp only [if_neg h1, if_neg h2, if_pos hc, hhead]
  · intro q hq
    rcases strFindAux_spec first_num.toList (pyStrip raw).toList 0 with ⟨_, hall⟩ | ⟨j, heq, _, hmin⟩
    · rw [hall q] at hq; simp at hq
    · rw [strFind, heq]
      by_cases hjq : j ≤ q
      · omega
      · rw [hmin q (by omega)] at hq; simp at hq
  · intro hpos
    rcases strFindAux_spec first_num.toList (pyStrip raw).toList 0 with ⟨heq, _⟩ | ⟨j, heq, hyes, _⟩
    · rw [strFind, heq] at hpos; omega
    · rw [strFind, heq]
      simpa using hyes

/-- A line whose first retained token's text ("5,00", the 2nd of 14 tokens)
also occurs earlier in the line (as the 1st, dropped token). -/
def deLineW : String :=
  "X 5,00 5,00 2,00 3,00 4,00 6,00 7,00 8,00 9,00 1,00 1,10 1,20 1,30 1,40"

def monthsW13 : List String := List.replicate 13 "M"

/-- C2 counterexample: the first retained token is the occurrence of "5,00"
at index 7, so the claim predicts the label "X 5,00" (everything before
index 7, trimmed); the code's `line.find` stops at the earlier occurrence at
index 2 and produces the label "X". -/
theorem rowOfLine_cex :
    rowOfLine monthsW13 deLineW =
      some ("X", ["5,00", "2,00", "3,00", "4,00", "6,00", "7,00", "8,00", "9,00",
        "1,00", "1,10", "1,20", "1,30", "1,40"]) ∧
    ((DE_findallPos deLineW).drop ((DE_findallPos deLineW).length - 13)).head? =
      some (7, "5,00") ∧
    pyStrip (pyTakeInt deLineW 7) = "X 5,00" ∧
    (("X" : String) == "X 5,00") = false := by decide

/-- Witness for C2 at the same concrete line. -/
theorem rowOfLine_spec_witness :
    (pyLastSlice monthsW13.length (DE_findall (pyStrip deLineW))).length =
      monthsW13.length := by
  obtain ⟨fn, -, -, h3, -, -⟩ :=
    rowOfLine_spec monthsW13 deLineW (by decide) (by decide) (by decide) (by decide)
  exact h3

/-! ### Header-width invariant (C7) -/

theorem rowOfLine_width (months : List String) (hm : 0 < months.length)
    (raw : String) (r : Row) (h : rowOfLine months raw = some r) :
    r.2.length = months.length := by
  rw [rowOfLine] at h
  by_cases h1 : pyStrip raw = ""
  · rw [if_pos h1] at h; simp at h
  · rw [if_neg h1] at h
    by_cases h2 : pyStrip raw = "Kostenarten:"
    · rw [if_pos h2] at h
      obtain rfl : (pyStrip raw, List.replicate months.length "") = r := by injection h
      simp
    · rw [if_neg h2] at h
      by_cases hc : months.length ≤ (DE_findall (pyStrip raw)).length
      · rw [if_pos hc] at h
        simp only [] at h
        cases hh : (pyLastSlice months.length (DE_findall (pyStrip raw))).head? with
        | none => rw [hh] at h; simp at h
        | some fn =>
          rw [hh] at h
          simp only [Option.some.injEq] at h
          subst h
          exact pyLastSlice_length _ _ hm hc
      · rw [if_neg hc] at h; simp at h

theorem dedupSeen_subset {α : Type} [DecidableEq α] :
    ∀ (l seen : List α) (x : α), x ∈ dedupSeen seen l → x ∈ l := by
  intro l
  induction l with
  | nil => intro seen x hx; simp [dedupSeen] at hx
  | cons a t ih =>
    intro seen x hx
    by_cases ha : a ∈ seen
    · rw [dedupSeen, if_pos ha] at hx
      exact List.mem_cons_of_mem a (ih seen x hx)
    · rw [dedupSeen, if_neg ha] at hx
      rcases List.mem_cons.mp hx with rfl | hx'
      · exact List.mem_cons_self _ _
      · exact List.mem_cons_of_mem a (ih (a :: seen) x hx')

theorem insertGo_width (n : Nat) :
    ∀ rows : List Row, (∀ r ∈ rows, r.2.length = n) →
      ∀ r ∈ insertGo rows n, r.2.length = n := by
  intro rows
  induction rows with
  | nil =>
    intro _ r hr
    rcases List.mem_singleton.mp hr with rfl
    simp [blankRow]
  | cons a t ih =>
    intro hall r hr
    have ha := hall a (List.mem_cons_self _ _)
    have ht : ∀ x ∈ t, x.2.length = n := fun x hx => hall x (List.mem_cons_of_mem a hx)
    rw [insertGo] at hr
    split at hr
    · rcases List.mem_cons.mp hr with rfl | hr'
      · exact ha
      · rcases List.mem_cons.mp hr' with rfl | hr''
        · simp [blankRow]
        · exact ih ht r hr''
    · rcases List.mem_cons.mp hr with rfl | hr'
      · exact ha
      · exact ih ht r hr'

theorem compressGo_subset :
    ∀ (l : List Row) (b : Bool) (r : Row), r ∈ compressGo b l → r ∈ l := by
  intro l
  induction l with
  | nil => intro b r hr; simp [compressGo] at hr
  | cons a t ih =>
    intro b r hr
    by_cases hab : isBlankB a && b
    · rw [compressGo, if_pos hab] at hr
      exact List.mem_cons_of_mem a (ih b r hr)
    · rw [compressGo, if_neg hab] at hr
      rcases List.mem_cons.mp hr with rfl | hr'
      · exact List.mem_cons_self _ _
      · exact List.mem_cons_of_mem a (ih _ r hr')

theorem outputRows_width (header : List String) :
    ∀ rows : List Row, (∀ r ∈ rows, r.2.length = header.length) →
      ∀ row ∈ outputRows header rows, row.length = header.length + 1 := by
  intro rows
  induction rows with
  | nil => intro _ row hrow; simp [outputRows] at hrow
  | cons a t ih =>
    intro hall row hrow
    cases a with
    | mk label values =>
      rw [outputRows] at hrow
      rcases List.mem_cons.mp hrow with rfl | hrow'
      · split
        · simp
        · have := hall (label, values) (List.mem_cons_self _ _)
          simp at this ⊢
          omega
      · exact ih (fun x hx => hall x (List.mem_cons_of_mem _ hx)) row hrow'

theorem ensure_kostenarten_width (months : List String) :
    ∀ rows : List Row, (∀ r ∈ rows, r.2.length = months.length) →
      ∀ r ∈ ensure_kostenarten rows months, r.2.length = months.length := by
  intro rows hall r hr
  rw [ensure_kostenarten] at hr
  split at hr
  · exact hall r hr
  · split at hr
    · exact hall r hr
    · rcases List.mem_append.mp hr with hr' | hr'
      · rcases List.mem_append.mp hr' with hr'' | hr''
        · exact hall r (List.take_subset _ _ hr'')
        · rcases List.mem_singleton.mp hr'' with rfl
          simp
      · exact hall r (List.drop_subset _ _ hr')

/-- C7: every extracted row has exactly N values (N = header width), the
invariant is preserved by sentinel insertion, deduplication, section-break
insertion and blank-run compression, and every row of the assembled output
table of the full pipeline has exactly 14 = 13 + 1 cells. -/
theorem header_width_invariant :
    (∀ (text : String) (months : List String), 0 < months.length →
      ∀ r ∈ parse_rows_from_text text months, r.2.length = months.length) ∧
    (∀ (months : List String) (rows : List Row), (∀ r ∈ rows, r.2.length = months.length) →
      ∀ r ∈ ensure_kostenarten rows months, r.2.length = months.length) ∧
    (∀ (n : Nat) (rows : List Row), (∀ r ∈ rows, r.2.length = n) →
      ∀ r ∈ dedup_rows rows, r.2.length = n) ∧
    (∀ (n : Nat) (rows : List Row), (∀ r ∈ rows, r.2.length = n) →
      ∀ r ∈ insert_section_breaks rows n, r.2.length = n) ∧
    (∀ (n : Nat) (rows : List Row), (∀ r ∈ rows, r.2.length = n) →
      ∀ r ∈ compress_blank_rows rows, r.2.length = n) ∧
    (∀ (text : String) (sn : Option (List String)) cols outRows,
      convert_pipeline text sn = Except.ok (cols, outRows) →
      ∀ row ∈ outRows, row.length = 14) := by
  have hparse : ∀ (text : String) (months : List String), 0 < months.length →
      ∀ r ∈ parse_rows_from_text text months, r.2.length = months.length := by
    intro text months hm r hr
    obtain ⟨line, -, hline⟩ := List.mem_filterMap.mp hr
    exact rowOfLine_width months hm line r hline
  have hdedup : ∀ (n : Nat) (rows : List Row), (∀ r ∈ rows, r.2.length = n) →
      ∀ r ∈ dedup_rows rows, r.2.length = n := by
    intro n rows hall r hr
    exact hall r (dedupSeen_subset rows [] r hr)
  have hinsert : ∀ (n : Nat) (rows : List Row), (∀ r ∈ rows, r.2.length = n) →
      ∀ r ∈ insert_section_breaks rows n, r.2.length = n := by
    intro n rows hall r hr
    rcases List.mem_cons.mp hr with rfl | hr'
    · simp [blankRow]
    · exact insertGo_width n rows hall r hr'
  have hcompress : ∀ (n : Nat) (rows : List Row), (∀ r ∈ rows, r.2.length = n) →
      ∀ r ∈ compress_blank_rows rows, r.2.length = n := by
    intro n rows hall r hr
    exact hall r (compressGo_subset rows false r hr)
  refine ⟨hparse, ensure_kostenarten_width, hdedup, hinsert, hcompress, ?_⟩
  intro text sn cols outRows h row hrow
  rw [convert_pipeline] at h
  cases hdet : detect_month_header text with
  | none => rw [hdet] at h; simp at h
  | some header =>
    rw [hdet] at h
    simp only [] at h
    obtain ⟨h13, -⟩ := detect_month_header_shape text header hdet
    have hm : 0 < header.length := by omega
    have w1 := hparse text header hm
    have w2 := ensure_kostenarten_width header _ w1
    have w3 := hdedup header.length _ w2
    have w4 := hinsert header.length _ w3
    have w5 := hcompress header.length _ w4
    -- the assembled rows: extract the outputRows equation from build
    have hbuild : outRows = outputRows header
        (compress_blank_rows (insert_section_breaks
          (dedup_rows (ensure_kostenarten (parse_rows_from_text text header) header))
          header.length)) := by
      cases sn with
      | none =>
        rw [build_output_table] at h
        simp at h
        exact h.2.symm
      | some l =>
        rw [build_output_table] at h
        by_cases hl : l.length = (compress_blank_rows (insert_section_breaks
          (dedup_rows (ensure_kostenarten (parse_rows_from_text text header) header))
          header.length)).length
        · rw [if_neg (by omega)] at h
          simp at h
          exact h.2.symm
        · rw [if_pos (by omega)] at h
          simp at h
    have := outputRows_width header _ w5 row (hbuild ▸ hrow)
    omega

/-- Witness for C7 at a concrete line with 13 tokens. -/
theorem header_width_invariant_witness :
    ("A", ["1,00", "2,00", "3,00", "4,00", "5,00", "6,00", "7,00", "8,00", "9,00",
      "1,10", "1,20", "1,30", "1,40"]).2.length = monthsW13.length :=
  header_width_invariant.1
    "A 1,00 2,00 3,00 4,00 5,00 6,00 7,00 8,00 9,00 1,10 1,20 1,30 1,40" monthsW13
    (by decide)
    ("A", ["1,00", "2,00", "3,00", "4,00", "5,00", "6,00", "7,00", "8,00", "9,00",
      "1,10", "1,20", "1,30", "1,40"])
    (by decide)

/-! ### Row filter (C3) -/

theorem wsStarThen_isSome (k : List Char → Option Nat) :
    ∀ cs : List Char, (wsStarThen k cs).isSome = true ↔
      ∃ i, (cs.take i).all isSpacePy = true ∧ (k (cs.drop i)).isSome = true := by
  intro cs
  induction cs with
  | nil =>
    constructor
    · intro h; exact ⟨0, by simp, by simpa [wsStarThen] using h⟩
    · rintro ⟨i, -, hk⟩
      simpa [wsStarThen] using hk
  | cons c t ih =>
    by_cases hsp : isSpacePy c
    · constructor
      · intro h
        rw [wsStarThen, if_pos hsp] at h
        cases hrec : wsStarThen k t with
        | some n =>
          obtain ⟨i, hsp', hk⟩ := ih.mp (by simp [hrec])
          exact ⟨i + 1, by simpa [hsp] using hsp', hk⟩
        | none =>
          rw [hrec] at h
          exact ⟨0, by simp, by simpa using h⟩
      · rintro ⟨i, hall, hk⟩
        rw [wsStarThen, if_pos hsp]
        cases hrec : wsStarThen k t with
        | some n => simp
        | none =>
          cases i with
          | zero => simpa using hk
          | succ i' =>
            have : (wsStarThen k t).isSome = true :=
              ih.mpr ⟨i', by simpa [hsp] using hall, hk⟩
            rw [hrec] at this
            simp at this
    · rw [wsStarThen, if_neg hsp]
      constructor
      · intro h
        exact ⟨0, by simp, by simpa using h⟩
      · rintro ⟨i, hall, hk⟩
        cases i with
        | zero => simpa using hk
        | succ i' =>
          exfalso
          have := hall
          simp [hsp] at this

theorem kontoEnd_isSome :
    ∀ cs : List Char, (kontoEnd cs).isSome = true ↔
      cs.length = 2 ∧ cs.all isDigitPy = true := by
  intro cs
  match cs with
  | [] => simp [kontoEnd]
  | [a] => simp [kontoEnd]
  | [a, b] =>
    constructor
    · intro h
      rw [kontoEnd] at h
      by_cases hd : (isDigitPy a && isDigitPy b) = true
      · rw [Bool.and_eq_true] at hd
        simp [hd.1, hd.2]
      · rw [if_neg hd] at h
        simp at h
    · intro h
      have hall := h.2
      simp only [List.all_cons, List.all_nil, Bool.and_eq_true] at hall
      rw [kontoEnd, if_pos (by simp [hall.1, hall.2.1])]
      rfl
  | a :: b :: c :: t => simp [kontoEnd]

theorem kontoFrom_isSome (d : Nat) (cs : List Char) :
    (kontoFrom d cs).isSome = true ↔
      (cs.take d).length = d ∧ (cs.take d).all isDigitPy = true ∧
      ∃ i, ((cs.drop d).take i).all isSpacePy = true ∧
        ((cs.drop d).drop i).length = 2 ∧ ((cs.drop d).drop i).all isDigitPy = true := by
  rw [kontoFrom]
  by_cases h : (decide ((cs.take d).length = d) && (cs.take d).all isDigitPy) = true
  · rw [if_pos h]
    rw [Bool.and_eq_true, decide_eq_true_eq] at h
    have hmap : ∀ o : Option Nat, (o.map (· + d)).isSome = o.isSome := by
      intro o; cases o <;> rfl
    rw [hmap, wsStarThen_isSome]
    constructor
    · rintro ⟨i, hsp, hk⟩
      obtain ⟨h2, hd⟩ := (kontoEnd_isSome _).mp hk
      exact ⟨h.1, h.2, i, hsp, h2, hd⟩
    · rintro ⟨-, -, i, hsp, h2, hd⟩
      exact ⟨i, hsp, (kontoEnd_isSome _).mpr ⟨h2, hd⟩⟩
  · rw [if_neg h]
    rw [Bool.and_eq_true, decide_eq_true_eq] at h
    constructor
    · intro hfalse; simp at hfalse
    · rintro ⟨h1, h2, -⟩
      exact absurd ⟨h1, h2⟩ h

/-- C3 (amended): `konto_re` accepts exactly the strings of the form
3–4 digits, then OPTIONAL whitespace (zero or more characters), then 2
digits — so 5- or 6-digit runs with no whitespace qualify as well; the
per-line filter accepts a line into the output if and only if its first
column's trimmed text is accepted, and every row of the output satisfies
the shape. -/
theorem susa_row_filter_spec :
    (∀ s : String, kontoAccept s = true ↔
      ∃ a w b : List Char, s.toList = a ++ w ++ b ∧
        (a.length = 3 ∨ a.length = 4) ∧ a.all isDigitPy = true ∧
        w.all isSpacePy = true ∧ b.length = 2 ∧ b.all isDigitPy = true) ∧
    (∀ glyphs : List PyChar, parse_page glyphs =
      (collect_lines glyphs 1).filterMap (fun yl => susaRowOfLine yl.2)) ∧
    (∀ (chars : List PyChar) (row : SusaRow), susaRowOfLine chars = some row →
      kontoAccept row.konto = true) ∧
    (∀ (pages : List (List PyChar)) (row : SusaRow), row ∈ parse_pdf_rows pages →
      kontoAccept row.konto = true) := by
  have hiff : ∀ s : String, kontoAccept s = true ↔
      ∃ a w b : List Char, s.toList = a ++ w ++ b ∧
        (a.length = 3 ∨ a.length = 4) ∧ a.all isDigitPy = true ∧
        w.all isSpacePy = true ∧ b.length = 2 ∧ b.all isDigitPy = true := by
    intro s
    rw [kontoAccept]
    constructor
    · intro h
      simp only [Bool.or_eq_true] at h
      rcases h with h | h
      · obtain ⟨hlen, hdig, i, hsp, h2, hd⟩ := (kontoFrom_isSome 4 s.toList).mp h
        refine ⟨s.toList.take 4, (s.toList.drop 4).take i, (s.toList.drop 4).drop i,
          ?_, Or.inr hlen, hdig, hsp, h2, hd⟩
        rw [List.append_assoc, List.take_append_drop, List.take_append_drop]
      · obtain ⟨hlen, hdig, i, hsp, h2, hd⟩ := (kontoFrom_isSome 3 s.toList).mp h
        refine ⟨s.toList.take 3, (s.toList.drop 3).take i, (s.toList.drop 3).drop i,
          ?_, Or.inl hlen, hdig, hsp, h2, hd⟩
        rw [List.append_assoc, List.take_append_drop, List.take_append_drop]
    · rintro ⟨a, w, b, hsplit, hal, hdig, hsp, h2, hd⟩
      simp only [Bool.or_eq_true]
      have htake : ∀ d, a.length = d → s.toList.take d = a ∧ s.toList.drop d = w ++ b := by
        intro d hd'
        rw [hsplit, List.append_assoc]
        constructor
        · rw [List.take_append_of_le_length (by omega), ← hd', List.take_length]
        · rw [List.drop_append_of_le_length (by omega), ← hd', List.drop_length]
          simp
      rcases hal with h3 | h4
      · right
        obtain ⟨hta, htd⟩ := htake 3 h3
        rw [kontoFrom_isSome]
        refine ⟨by rw [hta]; omega, by rw [hta]; exact hdig, w.length, ?_, ?_, ?_⟩
        · rw [htd, List.take_append_of_le_length (by omega), List.take_length]
          exact hsp
        · rw [htd, List.drop_append_of_le_length (by omega), List.drop_length]
          simpa using h2
        · rw [htd, List.drop_append_of_le_length (by omega), List.drop_length]
          simpa using hd
      · left
        obtain ⟨hta, htd⟩ := htake 4 h4
        rw [kontoFrom_isSome]
        refine ⟨by rw [hta]; omega, by rw [hta]; exact hdig, w.length, ?_, ?_, ?_⟩
        · rw [htd, List.take_append_of_le_length (by omega), List.take_length]
          exact hsp
        · rw [htd, List.drop_append_of_le_length (by omega), List.drop_length]
          simpa using h2
        · rw [htd, List.drop_append_of_le_length (by omega), List.drop_length]
          simpa using hd
  have hrow : ∀ (chars : List PyChar) (row : SusaRow), susaRowOfLine chars = some row →
      kontoAccept row.konto = true := by
    intro chars row h
    rw [susaRowOfLine] at h
    split at h
    · obtain rfl : _ = row := by injection h
      assumption
    · simp at h
  have hpage : ∀ glyphs : List PyChar, parse_page glyphs =
      (collect_lines glyphs 1).filterMap (fun yl => susaRowOfLine yl.2) := by
    intro glyphs
    rw [parse_page]
    generalize collect_lines glyphs 1 = lines
    induction lines with
    | nil => rfl
    | cons yl rest ih =>
      cases yl with
      | mk y lc =>
        rw [susaGo]
        cases h : susaRowOfLine lc with
        | none => simp [List.filterMap_cons, h, ih]
        | some r => simp [List.filterMap_cons, h, ih]
  refine ⟨hiff, hpage, hrow, ?_⟩
  intro pages row hmem
  induction pages with
  | nil => simp [parse_pdf_rows] at hmem
  | cons p ps ih =>
    rw [parse_pdf_rows] at hmem
    rcases List.mem_append.mp hmem with hm | hm
    · rw [hpage p] at hm
      obtain ⟨yl, -, hsome⟩ := List.mem_filterMap.mp hm
      exact hrow yl.2 row hsome
    · exact ih hm

/-- C3 counterexample: "12345" — five digits run together, no whitespace at
all — is accepted by the account-number filter, and a line whose sliced
first column reads "12345" is included in the page output. -/
theorem susa_row_filter_cex :
    kontoAccept "12345" = true ∧
    "12345".toList.all (fun c => !(isSpacePy c)) = true ∧
    parse_page [⟨"1", 10, 0⟩, ⟨"2", 20, 0⟩, ⟨"3", 30, 0⟩, ⟨"4", 40, 0⟩, ⟨"5", 50, 0⟩] =
      [{ konto := "12345", beschriftung := "", ebWert := 0, oktSoll := 0, oktHaben := 0,
         kumSoll := 0, kumHaben := 0, saldo := 0 }] := by
  refine ⟨by decide, by decide, ?_⟩
  with_unfolding_all decide

/-- Witness for C3: a properly shaped account number with the whitespace. -/
theorem susa_row_filter_spec_witness : kontoAccept "123 45" = true :=
  (susa_row_filter_spec.1 "123 45").mpr
    ⟨['1', '2', '3'], [' '], ['4', '5'], by decide, Or.inl (by decide), by decide,
      by decide, by decide, by decide⟩
